import Mathlib

/-!
Shallow embedding of the phishing-extension detection engine and result cache.

Sources embedded here:
* `src/unnamed/part_001` — class `PhishingDetector` (URL / content / form /
  behavior analysis passes, typosquatting and homograph detection,
  Levenshtein distance, risk-level classification).
* `src/unnamed/part_000` (second file in the bundle) — class `CacheManager`
  (LRU cache with TTL, export/import snapshots).
* `src/config.js` — the frozen `CONFIG` object (weights, thresholds,
  pattern lists, typosquatting parameters).

JavaScript machine details are modelled as follows: strings are Lean
`String`/`List Char` (all inputs of interest are ASCII apart from the
homograph table, which is copied verbatim); JS numbers that only ever hold
non-negative integers (scores, counts, timestamps) are `Nat`; the one
fractional comparison (keyboard-proximity ratio against the 0.8 threshold)
is decided by exact integer cross-multiplication, sound because 0.8 = 4/5
and all match scores are multiples of 1/2; `Date.now()` is an explicit
`now : Nat` argument.
-/

namespace Phish

/-- Substring test, modelling JS `String.prototype.includes` on char lists:
`containsSub hay needle` is true when `needle` occurs contiguously in `hay`
(the empty needle is contained in everything, as in JS). -/
def containsSub : List Char → List Char → Bool
  | hay, needle =>
    needle.isPrefixOf hay ||
      match hay with
      | [] => false
      | _ :: t => containsSub t needle

/-- JS `s.includes(sub)` on `String`. -/
def strIncludes (s sub : String) : Bool :=
  containsSub s.data sub.data

/-- JS `s.toLowerCase()`; `Char.toLower` agrees with JS on ASCII, which is
all the engine's own data uses. -/
def strToLower (s : String) : String :=
  ⟨s.data.map Char.toLower⟩

/-- JS `s.endsWith(suffix)`. -/
def strEndsWith (s suf : String) : Bool :=
  suf.data.isSuffixOf s.data

/-- JS `s.startsWith(pre)`. -/
def strStartsWith (s pre : String) : Bool :=
  pre.data.isPrefixOf s.data

/-- JS `s.split(sep)` for a single-character separator: `[""].` for the
empty string, and no trailing-separator merging, exactly as in JS. -/
def splitChar (sep : Char) : List Char → List (List Char)
  | [] => [[]]
  | c :: rest =>
    let r := splitChar sep rest
    if c == sep then [] :: r
    else
      match r with
      | [] => [[c]]
      | h :: t => (c :: h) :: t

/-- `s.split(sep)` producing `String` pieces. -/
def strSplit (s : String) (sep : Char) : List String :=
  (splitChar sep s.data).map fun l => ⟨l⟩

/-- Count occurrences of a character, modelling `(s.match(/c/g) || []).length`
for a single literal character `c`. -/
def countChar (s : String) (c : Char) : Nat :=
  s.data.countP (fun x => x == c)

/-- One DP row update for the Levenshtein matrix of
`PhishingDetector._calculateLevenshteinDistance` (part_001 lines 429-450).
`pairs` zips the remaining characters of `str1` with the previous row's
entries `matrix[i-1][j]` for `j = 1..`; `diag` is `matrix[i-1][j-1]` and
`left` is the freshly computed `matrix[i][j-1]`. -/
def levRowAux (c2 : Char) : List (Char × Nat) → Nat → Nat → List Nat
  | [], _, _ => []
  | (c1, up) :: rest, diag, left =>
    let cell := if c2 == c1 then diag else min (min diag left) up + 1
    cell :: levRowAux c2 rest up cell

/-- Levenshtein edit distance, the classic DP of
`_calculateLevenshteinDistance`: row 0 is `0..str1.length`, each character
of `str2` produces the next row, and the answer is the last cell of the
last row. -/
def levenshtein (str1 str2 : List Char) : Nat :=
  let row0 : List Nat := List.range (str1.length + 1)
  let final :=
    str2.foldl
      (fun (acc : List Nat × Nat) c2 =>
        let prev := acc.1
        let i := acc.2 + 1
        (i :: levRowAux c2 (str1.zip prev.tail) (prev.headD 0) i, i))
      (row0, 0)
  final.1.getLastD 0

/-- Risk-level thresholds, `CONFIG.RISK_THRESHOLDS` (config.js lines 12-18). -/
structure RiskThresholds where
  safeT : Nat
  low : Nat
  medium : Nat
  high : Nat
  critical : Nat
deriving DecidableEq, Repr

/-- Named score weights, `CONFIG.SCORE_WEIGHTS` (config.js lines 41-75). -/
structure ScoreWeights where
  nonHttpsSensitive : Nat
  ipAddressDomain : Nat
  suspiciousTLD : Nat
  excessiveSubdomains : Nat
  homographAttack : Nat
  typosquatting : Nat
  urlAtSymbol : Nat
  urlShortener : Nat
  embeddedURL : Nat
  suspiciousKeyword : Nat
  urgencyPhrase : Nat
  excessiveExclamations : Nat
  hiddenIframe : Nat
  misleadingLink : Nat
  obfuscatedScript : Nat
  passwordNoHttps : Nat
  externalFormAction : Nat
  httpsLoginUnknown : Nat
  httpLogin : Nat
  httpsLoginKnown : Nat
  creditCardRequest : Nat
  ssnRequest : Nat
  autoSubmitForm : Nat
  popupWindow : Nat
  rightClickDisabled : Nat
  clipboardAccess : Nat
deriving DecidableEq, Repr

/-- Pattern lists of `CONFIG.PATTERNS` (config.js lines 78-110); the three
regexes of that object are modelled as dedicated functions below. -/
structure Patterns where
  suspiciousTLDs : List String
  suspiciousKeywords : List String
  urgencyPhrases : List String
  urlShorteners : List String
deriving DecidableEq, Repr

/-- `CONFIG.TYPOSQUATTING` (config.js lines 113-117). The 0.8 proximity
threshold is carried as the exact fraction
`keyboardProximityThresholdNum / keyboardProximityThresholdDen = 4/5`, so
the ratio comparison below is decided over integers without rounding. -/
structure TyposquattingCfg where
  maxLevenshteinDistance : Nat
  minDomainLength : Nat
  keyboardProximityThresholdNum : Nat
  keyboardProximityThresholdDen : Nat
deriving DecidableEq, Repr

/-- The configuration slice consumed by `PhishingDetector`. -/
structure Config where
  riskThresholds : RiskThresholds
  scoreWeights : ScoreWeights
  patterns : Patterns
  typosquatting : TyposquattingCfg
deriving DecidableEq

/-- The default configuration object of `src/config.js`, field for field. -/
def CONFIG : Config where
  riskThresholds :=
    { safeT := 0, low := 20, medium := 40, high := 60, critical := 80 }
  scoreWeights :=
    { nonHttpsSensitive := 25
      ipAddressDomain := 30
      suspiciousTLD := 15
      excessiveSubdomains := 10
      homographAttack := 40
      typosquatting := 35
      urlAtSymbol := 20
      urlShortener := 10
      embeddedURL := 15
      suspiciousKeyword := 5
      urgencyPhrase := 8
      excessiveExclamations := 10
      hiddenIframe := 25
      misleadingLink := 15
      obfuscatedScript := 15
      passwordNoHttps := 35
      externalFormAction := 30
      httpsLoginUnknown := 15
      httpLogin := 15
      httpsLoginKnown := 2
      creditCardRequest := 15
      ssnRequest := 20
      autoSubmitForm := 20
      popupWindow := 10
      rightClickDisabled := 5
      clipboardAccess := 10 }
  patterns :=
    { suspiciousTLDs :=
        [".tk", ".ml", ".ga", ".cf", ".gq", ".xyz", ".top", ".work",
         ".live", ".site", ".online", ".club", ".bid", ".loan"]
      suspiciousKeywords :=
        ["verify", "urgent", "suspended", "locked", "limited", "unusual",
         "confirm", "update", "secure", "expire", "immediately",
         "account-update", "security-alert", "billing-problem",
         "reset-password", "click-here", "prize", "winner",
         "congratulations", "claim", "free-money"]
      urgencyPhrases :=
        ["act now", "immediate action", "within 24 hours",
         "account will be closed", "verify immediately",
         "urgent action required", "expire soon", "last chance",
         "don\x27t miss out", "limited time", "respond now", "final notice"]
      urlShorteners :=
        ["bit.ly", "tinyurl.com", "goo.gl", "t.co", "ow.ly", "is.gd",
         "buff.ly", "adf.ly", "bit.do", "mcaf.ee"] }
  typosquatting :=
    { maxLevenshteinDistance := 2
      minDomainLength := 4
      keyboardProximityThresholdNum := 4
      keyboardProximityThresholdDen := 5 }

/-- `this._legitimateDomains` of `PhishingDetector._ensureDataLoaded`
(part_001 lines 52-73), in source order. -/
def legitimateDomains : List String :=
  ["google.com", "facebook.com", "microsoft.com", "apple.com", "amazon.com",
   "twitter.com", "instagram.com", "youtube.com", "linkedin.com", "tiktok.com",
   "zoom.us", "dropbox.com", "adobe.com", "salesforce.com", "slack.com",
   "paypal.com", "stripe.com", "square.com", "chase.com", "bankofamerica.com",
   "wellsfargo.com", "citibank.com", "venmo.com", "cashapp.com", "coinbase.com",
   "ebay.com", "etsy.com", "walmart.com", "target.com", "bestbuy.com",
   "shopify.com", "alibaba.com", "aliexpress.com",
   "github.com", "gitlab.com", "stackoverflow.com", "npmjs.com", "pypi.org",
   "docker.com", "heroku.com", "vercel.com", "netlify.com",
   "netflix.com", "spotify.com", "hulu.com", "twitch.tv", "discord.com",
   "reddit.com", "imgur.com", "medium.com",
   "wikipedia.org", "coursera.org", "udemy.com", "khanacademy.org",
   "irs.gov", "usps.com", "gov.uk", "canada.ca"]

/-- `this._homographs` (part_001 lines 76-81): Latin letters paired with
their lookalike alternates, in source entry order. Note the ASCII
alternates `0` (for `o`) and `1`, `l` (for `i`). -/
def homographs : List (Char × List Char) :=
  [('a', ['а', 'ɑ', 'α']), ('e', ['е', 'ė', 'ē']), ('o', ['о', 'ο', '0']),
   ('p', ['р', 'ρ']), ('c', ['с', 'ϲ']), ('i', ['і', 'ı', '1', 'l']),
   ('x', ['х', 'χ']), ('y', ['у', 'ү']), ('h', ['һ']), ('b', ['ь']),
   ('s', ['ѕ']), ('j', ['ј'])]

/-- The per-character effect of `_checkCharSubstitution`'s replacement loop
(part_001 lines 456-462) on the six keys whose `new RegExp(fake, 'g')`
matches the literal character: `0→o`, `1→il`, `3→e`, `5→s`, `8→b`, `@→a`.
The seventh entry `'$': 's'` compiles to the regex `/$/g`, which matches
the end of the string, not a literal `$` — it is handled in
`charSubNormalize`, and a literal `$` character is left unchanged here. -/
def substChar (c : Char) : List Char :=
  if c == '0' then ['o']
  else if c == '1' then ['i', 'l']
  else if c == '3' then ['e']
  else if c == '5' then ['s']
  else if c == '8' then ['b']
  else if c == '@' then ['a']
  else [c]

/-- `_checkCharSubstitution`'s normalization of `current`: the six literal
substitutions applied globally (their keys are disjoint from all
replacement characters, so sequential `replace` passes equal one
character-wise pass), followed by the `'$': 's'` entry whose compiled
regex `/$/g` matches the end-of-string position once and therefore appends
an `s`. -/
def charSubNormalize (s : List Char) : List Char :=
  (s.map substChar).flatten ++ ['s']

/-- `this._keyboardProximity` (part_001 lines 89-100). -/
def keyboardProximity : List (Char × List Char) :=
  [('q', ['w', 'a']), ('w', ['q', 'e', 's', 'a']), ('e', ['w', 'r', 'd', 's']),
   ('r', ['e', 't', 'f', 'd']), ('t', ['r', 'y', 'g', 'f']),
   ('y', ['t', 'u', 'h', 'g']), ('u', ['y', 'i', 'j', 'h']),
   ('i', ['u', 'o', 'k', 'j']), ('o', ['i', 'p', 'l', 'k']),
   ('p', ['o', 'l']), ('a', ['q', 'w', 's', 'z']),
   ('s', ['a', 'w', 'e', 'd', 'z', 'x']),
   ('d', ['s', 'e', 'r', 'f', 'x', 'c']), ('f', ['d', 'r', 't', 'g', 'c', 'v']),
   ('g', ['f', 't', 'y', 'h', 'v', 'b']), ('h', ['g', 'y', 'u', 'j', 'b', 'n']),
   ('j', ['h', 'u', 'i', 'k', 'n', 'm']), ('k', ['j', 'i', 'o', 'l', 'm']),
   ('l', ['k', 'o', 'p']), ('z', ['a', 's', 'x']), ('x', ['z', 's', 'd', 'c']),
   ('c', ['x', 'd', 'f', 'v']), ('v', ['c', 'f', 'g', 'b']),
   ('b', ['v', 'g', 'h', 'n']), ('n', ['b', 'h', 'j', 'm']),
   ('m', ['n', 'j', 'k'])]

/-- `this._keyboardProximity[legitChar]?.includes(currChar)`. -/
def kbAdjacent (legitChar currChar : Char) : Bool :=
  match keyboardProximity.find? (fun p => p.1 == legitChar) with
  | some p => p.2.contains currChar
  | none => false

/-- `_checkDoubledChars`'s `current.replace(/(.)\1+/g, '$1')` (part_001
line 493): every maximal run of a repeated character is collapsed to a
single occurrence. (The regex `.` excludes newlines; domain labels contain
none.) -/
def collapseRuns : List Char → List Char
  | [] => []
  | a :: rest =>
    match rest with
    | [] => [a]
    | b :: _ => if a == b then collapseRuns rest else a :: collapseRuns rest

/-- `_detectKeyboardProximityAttack`'s aligned match score, in half points
to stay in `Nat`: an exact character match contributes 2 (JS 1.0), an
adjacent-key match per `_keyboardProximity[legitChar]` contributes 1
(JS 0.5). Walks the zipped common prefix, as the JS loop walks
`i < min(len, len)`. -/
def proximityScore2 (current legit : List Char) : Nat :=
  (current.zip legit).foldl
    (fun acc p =>
      if p.1 == p.2 then acc + 2
      else if kbAdjacent p.2 p.1 then acc + 1
      else acc)
    0

/-- `PhishingDetector._detectKeyboardProximityAttack` (part_001 lines
468-486): bail out when the length difference exceeds 2, else declare an
attack when `matchScore / maxLen > threshold`. With `matchScore =
proximityScore2 / 2` and `threshold = num / den`, that inequality is the
exact integer comparison `den * proximityScore2 > num * (2 * maxLen)`
(`maxLen = 0` gives JS `NaN > 0.8`, false, matching `0 > 0` here). -/
def keyboardProximityAttack (cfg : Config) (current legit : List Char) : Bool :=
  if 2 < Nat.dist current.length legit.length then false
  else
    let maxLen := max current.length legit.length
    decide (cfg.typosquatting.keyboardProximityThresholdNum * (2 * maxLen) <
      cfg.typosquatting.keyboardProximityThresholdDen *
        proximityScore2 current legit)

/-- `PhishingDetector._detectTyposquatting` (part_001 lines 359-400):
compare the first label of `domain` against each legitimate domain's first
label, returning the first legitimate domain for which one of the five
checks fires, in source order: (a) Levenshtein distance in
`[1, MAX_LEVENSHTEIN_DISTANCE]` with the legitimate label at least
`MIN_DOMAIN_LENGTH` long; (b) strict substring containment; (c) equality
after character-substitution normalization; (d) keyboard proximity;
(e) equality after doubled-character collapse. Exact label matches and
label-length differences above 3 are skipped. The memoization wrapper
`_getLevenshteinDistance` only caches `_calculateLevenshteinDistance` and
never changes its value, so the plain function is used here. -/
def detectTyposquatting (cfg : Config) (domain : String) : Option String :=
  let currentBase := (splitChar '.' domain.data).headD []
  legitimateDomains.findSome? fun legitimate =>
    let legitBase := (splitChar '.' legitimate.data).headD []
    if legitBase == currentBase then none
    else if 3 < Nat.dist legitBase.length currentBase.length then none
    else
      let distance := levenshtein legitBase currentBase
      if 0 < distance ∧ distance ≤ cfg.typosquatting.maxLevenshteinDistance ∧
          cfg.typosquatting.minDomainLength ≤ legitBase.length then
        some legitimate
      else if containsSub currentBase legitBase ∧ currentBase ≠ legitBase then
        some legitimate
      else if charSubNormalize currentBase = legitBase then
        some legitimate
      else if keyboardProximityAttack cfg currentBase legitBase then
        some legitimate
      else if collapseRuns currentBase = legitBase then
        some legitimate
      else none

/-- `PhishingDetector._detectHomographAttack` (part_001 lines 337-353):
true when the domain matches `PUNYCODE_PATTERN` (a substring test for
`xn--`) or contains any alternate character from the homograph table. -/
def detectHomographAttack (domain : String) : Bool :=
  strIncludes domain "xn--" ||
    homographs.any fun p => p.2.any fun alt => containsSub domain.data [alt]

end Phish



namespace Phish

/-- Result of `new URL(url)` as far as the detector reads it: `protocol`
(with trailing colon), `hostname` (lowercased, no port, no userinfo),
`pathname` (leading slash) and `search` (leading question mark, empty when
absent). -/
structure UrlObj where
  protocol : String
  hostname : String
  pathname : String
  search : String
deriving DecidableEq, Repr

/-- Modelled from the platform: the WHATWG `new URL(url)` constructor,
restricted to absolute `http:` and `https:` URLs, which are the only ones
the engine's callers hand it (the host shell filters out `chrome:` and
similar internal pages). Any other string is a parse failure (`none`),
modelling the constructor throwing. Path normalization of `..` segments is
not modelled; no input in this development contains them. -/
def parseURL (url : String) : Option UrlObj :=
  let afterScheme : String → String → Option UrlObj := fun proto rest =>
    let l := rest.data
    let authority := l.takeWhile fun c => c != '/' && c != '?' && c != '#'
    let afterAuth := l.drop authority.length
    let hostPort :=
      if authority.contains '@' then
        (authority.reverse.takeWhile (· != '@')).reverse
      else authority
    let host := hostPort.takeWhile (· != ':')
    if host.isEmpty then none
    else
      let pathChars := afterAuth.takeWhile fun c => c != '?' && c != '#'
      let path := if pathChars.isEmpty then "/" else ⟨pathChars⟩
      let afterPath := afterAuth.drop pathChars.length
      let search : String := ⟨afterPath.takeWhile (· != '#')⟩
      some ⟨proto, strToLower ⟨host⟩, path, search⟩
  if strStartsWith url "https://" then afterScheme "https:" (url.drop 8)
  else if strStartsWith url "http://" then afterScheme "http:" (url.drop 7)
  else none

/-- `CONFIG.PATTERNS.IP_ADDRESS_PATTERN.test(url)`: the anchored regex
for `http` then an optional `s`, `://` and four dot-separated runs of one
or more digits (greedy digit runs never backtrack here since a digit run
and a dot are disjoint). -/
def ipPattern (url : String) : Bool :=
  let rest :=
    if strStartsWith url "http://" then some (url.drop 7).data
    else if strStartsWith url "https://" then some (url.drop 8).data
    else none
  match rest with
  | none => false
  | some l =>
    let run : List Char → Option (List Char) := fun l =>
      let ds := l.takeWhile Char.isDigit
      if ds.isEmpty then none else some (l.drop ds.length)
    let dot : List Char → Option (List Char) := fun l =>
      match l with
      | '.' :: t => some t
      | _ => none
    (((((((run l).bind dot).bind run).bind dot).bind run).bind dot).bind
      run).isSome

/-- A partial analysis as filled in by one pass: `score` plus ordered
threat strings. (`_analyzeURL` also builds a `details` object, but
`_mergeAnalysis` — part_001 lines 172-177 — copies only score and threats
into the final result, so details never reach the returned assessment and
are not carried here.) -/
structure PassResult where
  score : Nat
  threats : List String
deriving DecidableEq, Repr

/-- `PhishingDetector._isSensitivePath` (part_001 lines 289-291). -/
def isSensitivePath (path : String) : Bool :=
  strIncludes path "login" || strIncludes path "payment" ||
    strIncludes path "checkout"

/-- `PhishingDetector._analyzeURL` (part_001 lines 198-283): on a parse
failure the caught exception leaves the initialized zero analysis; else
the ten additive rules in source order. -/
def analyzeURL (cfg : Config) (url : String) : PassResult :=
  match parseURL url with
  | none => ⟨0, []⟩
  | some urlObj =>
    let domain := strToLower urlObj.hostname
    let path := strToLower urlObj.pathname
    let fullURL := strToLower url
    let w := cfg.scoreWeights
    let r1 : Nat × List String :=
      if urlObj.protocol != "https:" && isSensitivePath path then
        (w.nonHttpsSensitive, ["Non-HTTPS connection on sensitive page"])
      else (0, [])
    let r2 : Nat × List String :=
      if ipPattern url then
        (w.ipAddressDomain, ["Using IP address instead of domain name"])
      else (0, [])
    let r3 : Nat × List String :=
      if cfg.patterns.suspiciousTLDs.any (fun tld => strEndsWith domain tld) then
        (w.suspiciousTLD, ["Suspicious top-level domain"])
      else (0, [])
    let subdomainCount : Int := (splitChar '.' domain.data).length - 2
    let r4 : Nat × List String :=
      if 3 < subdomainCount then
        (w.excessiveSubdomains, ["Excessive subdomains detected"])
      else (0, [])
    let keywords := cfg.patterns.suspiciousKeywords.filter
      fun kw => strIncludes fullURL kw
    let r5 : Nat × List String :=
      if 0 < keywords.length then
        (keywords.length * w.suspiciousKeyword,
         ["Suspicious keywords: " ++ String.intercalate ", " (keywords.take 3)])
      else (0, [])
    let r6 : Nat × List String :=
      if detectHomographAttack domain then
        (w.homographAttack, ["Possible homograph attack (lookalike characters)"])
      else (0, [])
    let r7 : Nat × List String :=
      match detectTyposquatting cfg domain with
      | some typoTarget =>
        (w.typosquatting, ["Possible typosquatting: similar to " ++ typoTarget])
      | none => (0, [])
    let r8 : Nat × List String :=
      if strIncludes fullURL "@" then
        (w.urlAtSymbol, ["URL contains @ symbol (possible redirect)"])
      else (0, [])
    let r9 : Nat × List String :=
      if cfg.patterns.urlShorteners.any (fun sh => strIncludes domain sh) then
        (w.urlShortener, ["URL shortener detected"])
      else (0, [])
    let r10 : Nat × List String :=
      if strIncludes path "http" then
        (w.embeddedURL, ["Embedded URL in path (redirect chain)"])
      else (0, [])
    ⟨r1.1 + r2.1 + r3.1 + r4.1 + r5.1 + r6.1 + r7.1 + r8.1 + r9.1 + r10.1,
     r1.2 ++ r2.2 ++ r3.2 ++ r4.2 ++ r5.2 ++ r6.2 ++ r7.2 ++ r8.2 ++ r9.2 ++
       r10.2⟩

end Phish

namespace Phish

/-- One `<input>` element as the form pass reads it: `type`, `name`, `id`
and `placeholder` attributes (empty string for absent, matching the JS
template-literal coercion of `undefined` only up to the token searches
actually performed, none of which match the text `undefined`). -/
structure InputEl where
  type : String
  name : String
  id : String
  placeholder : String
deriving DecidableEq, Repr

/-- One `<form>` element: its inputs and its `action` attribute (empty
when absent, which is falsy in the JS `action && ...` guard). -/
structure FormEl where
  inputs : List InputEl
  action : String
deriving DecidableEq, Repr

/-- One `<a href>` element: visible text and resolved href. -/
structure LinkEl where
  text : String
  href : String
deriving DecidableEq, Repr

/-- The document handle contract of §6: everything the content, form and
behavior passes query from the DOM layer. `iframesHidden` records, per
iframe, the externally computed visibility verdict
(`display:none`/`visibility:hidden`/zero size) that
`_findHiddenIframes` reads through `window.getComputedStyle`;
`hasContextMenuAttr` is `doc.body.hasAttribute('oncontextmenu')`. -/
structure Doc where
  bodyText : String
  iframesHidden : List Bool
  links : List LinkEl
  scripts : List String
  forms : List FormEl
  bodyHTML : String
  hasContextMenuAttr : Bool
deriving DecidableEq, Repr

/-- `PhishingDetector._analyzeContent` (part_001 lines 501-548): urgency
phrases, exclamation marks, hidden iframes, misleading links and
obfuscated scripts, in source order. -/
def analyzeContent (cfg : Config) (doc : Doc) : PassResult :=
  let bodyText := strToLower doc.bodyText
  let w := cfg.scoreWeights
  let urgencyMatches := cfg.patterns.urgencyPhrases.filter
    fun phrase => strIncludes bodyText (strToLower phrase)
  let c1 : Nat × List String :=
    if 0 < urgencyMatches.length then
      (urgencyMatches.length * w.urgencyPhrase,
       ["Urgency tactics: " ++ toString urgencyMatches.length ++ " phrases"])
    else (0, [])
  let exclamationCount := countChar bodyText '!'
  let c2 : Nat × List String :=
    if 10 < exclamationCount then
      (w.excessiveExclamations, ["Excessive exclamation marks"])
    else (0, [])
  let hiddenIframes := doc.iframesHidden.countP id
  let c3 : Nat × List String :=
    if 0 < hiddenIframes then
      (hiddenIframes * w.hiddenIframe,
       [toString hiddenIframes ++ " hidden iframe(s) detected"])
    else (0, [])
  let misleadingLinks := doc.links.countP fun link =>
    legitimateDomains.any fun dm =>
      strIncludes (strToLower link.text) dm &&
        !(strIncludes (strToLower link.href) dm)
  let c4 : Nat × List String :=
    if 0 < misleadingLinks then
      (misleadingLinks * w.misleadingLink,
       [toString misleadingLinks ++ " misleading link(s)"])
    else (0, [])
  let obfuscatedScripts := doc.scripts.countP fun content =>
    strIncludes content "eval(" || strIncludes content "unescape("
  let c5 : Nat × List String :=
    if 0 < obfuscatedScripts then
      (obfuscatedScripts * w.obfuscatedScript,
       [toString obfuscatedScripts ++ " obfuscated script(s)"])
    else (0, [])
  ⟨c1.1 + c2.1 + c3.1 + c4.1 + c5.1, c1.2 ++ c2.2 ++ c3.2 ++ c4.2 ++ c5.2⟩

/-- `PhishingDetector._analyzeForm` (part_001 lines 649-707): classify the
form's inputs, then the five additive scoring rules in source order. -/
def analyzeForm (cfg : Config) (form : FormEl) (urlObj : UrlObj) : PassResult :=
  let w := cfg.scoreWeights
  let combinedOf : InputEl → String := fun input =>
    strToLower (input.type ++ " " ++ input.name ++ " " ++ input.id ++ " " ++
      input.placeholder)
  let hasPassword := form.inputs.any fun input =>
    input.type == "password" || strIncludes (combinedOf input) "password"
  let hasEmail := form.inputs.any fun input =>
    input.type == "email" || strIncludes (combinedOf input) "email"
  let hasCreditCard := form.inputs.any fun input =>
    strIncludes (combinedOf input) "card" || strIncludes (combinedOf input) "cvv"
  let hasSSN := form.inputs.any fun input =>
    strIncludes (combinedOf input) "ssn" || strIncludes (combinedOf input) "social"
  let isExternalAction :=
    form.action != "" && !(strIncludes form.action urlObj.hostname)
  let f1 : Nat × List String :=
    if hasPassword && urlObj.protocol != "https:" then
      (w.passwordNoHttps, ["Password field on non-HTTPS page"])
    else (0, [])
  let f2 : Nat × List String :=
    if isExternalAction && (hasPassword || hasEmail || hasCreditCard) then
      (w.externalFormAction, ["Sensitive form submits to external domain"])
    else (0, [])
  let f3 : Nat × List String :=
    if hasEmail && hasPassword then
      let isKnownDomain := legitimateDomains.any
        fun dm => strIncludes urlObj.hostname dm
      if urlObj.protocol == "https:" && isKnownDomain then
        (w.httpsLoginKnown, [])
      else if urlObj.protocol == "https:" then
        (w.httpsLoginUnknown, [])
      else
        (w.httpLogin, ["Login form on non-HTTPS page"])
    else (0, [])
  let f4 : Nat × List String :=
    if hasCreditCard then
      (w.creditCardRequest, ["Credit card information requested"])
    else (0, [])
  let f5 : Nat × List String :=
    if hasSSN then
      (w.ssnRequest, ["Social Security Number requested"])
    else (0, [])
  ⟨f1.1 + f2.1 + f3.1 + f4.1 + f5.1, f1.2 ++ f2.2 ++ f3.2 ++ f4.2 ++ f5.2⟩

/-- `PhishingDetector._analyzeForms` (part_001 lines 624-643): parse the
URL once — a parse failure throws, is caught, and the whole pass
contributes the initialized zero analysis — then sum over all forms. -/
def analyzeForms (cfg : Config) (doc : Doc) (url : String) : PassResult :=
  match parseURL url with
  | none => ⟨0, []⟩
  | some urlObj =>
    doc.forms.foldl
      (fun acc form =>
        let r := analyzeForm cfg form urlObj
        ⟨acc.score + r.score, acc.threats ++ r.threats⟩)
      ⟨0, []⟩

/-- `PhishingDetector._analyzeBehavior` (part_001 lines 713-749): four
substring/attribute probes over the body markup, in source order. -/
def analyzeBehavior (cfg : Config) (doc : Doc) : PassResult :=
  let w := cfg.scoreWeights
  let b1 : Nat × List String :=
    if strIncludes doc.bodyHTML "submit()" then
      (w.autoSubmitForm, ["Auto-submitting form detected"])
    else (0, [])
  let b2 : Nat × List String :=
    if strIncludes doc.bodyHTML "window.open(" then
      (w.popupWindow, ["Popup window code detected"])
    else (0, [])
  let b3 : Nat × List String :=
    if doc.hasContextMenuAttr then
      (w.rightClickDisabled, ["Right-click disabled"])
    else (0, [])
  let b4 : Nat × List String :=
    if strIncludes doc.bodyHTML "clipboard" then
      (w.clipboardAccess, ["Clipboard access detected"])
    else (0, [])
  ⟨b1.1 + b2.1 + b3.1 + b4.1, b1.2 ++ b2.2 ++ b3.2 ++ b4.2⟩

/-- `PhishingDetector._getRiskLevel` (part_001 lines 755-762). -/
def getRiskLevel (cfg : Config) (score : Nat) : String :=
  if cfg.riskThresholds.critical ≤ score then "critical"
  else if cfg.riskThresholds.high ≤ score then "high"
  else if cfg.riskThresholds.medium ≤ score then "medium"
  else if cfg.riskThresholds.low ≤ score then "low"
  else "safe"

/-- The assessment object returned by `analyze`. The `details` object of
the result literal stays `{}` for the whole call — `_mergeAnalysis` copies
only `score` and `threats` out of the per-pass analyses — so no `details`
field is carried here. -/
structure Assessment where
  score : Nat
  level : String
  threats : List String
  timestamp : Nat
  error : Option String
deriving DecidableEq, Repr

/-- `PhishingDetector._createSafeResult` (part_001 lines 183-192). -/
def createSafeResult (now : Nat) : Assessment :=
  ⟨0, "safe", [], now, some "Invalid input"⟩

/-- `PhishingDetector.analyze` (part_001 lines 111-166) on the analysis
path: input validation (`!url` — the empty string is the only falsy
`String`), then the URL pass, then the three document passes when a
document is supplied, then classification. The detector's optional result
cache is modelled separately below (`CacheManager`); this function is the
cache-miss/no-cache behavior, which is also what a cold-cache call
computes before storing. Nothing inside the modelled passes throws, so the
surrounding `try` never populates `results.error` here. -/
def analyze (cfg : Config) (url : String) (doc : Option Doc) (now : Nat) :
    Assessment :=
  if url == "" then createSafeResult now
  else
    let urlAnalysis := analyzeURL cfg url
    let docPart : Nat × List String :=
      match doc with
      | none => (0, [])
      | some d =>
        let c := analyzeContent cfg d
        let f := analyzeForms cfg d url
        let b := analyzeBehavior cfg d
        (c.score + f.score + b.score, c.threats ++ f.threats ++ b.threats)
    let score := urlAnalysis.score + docPart.1
    ⟨score, getRiskLevel cfg score, urlAnalysis.threats ++ docPart.2, now, none⟩

end Phish

namespace Phish

/-- Hit/miss/eviction/set counters, `this.stats` of `CacheManager`
(part_000 cache-manager section, constructor lines 407-418). -/
structure CacheStats where
  hits : Nat
  misses : Nat
  evictions : Nat
  sets : Nat
deriving DecidableEq, Repr

/-- A stored cache entry: `{ data, timestamp }` as written by
`CacheManager.set`. -/
structure CacheEntry where
  data : Assessment
  timestamp : Nat
deriving DecidableEq, Repr

/-- `CacheManager`'s mutable state: the `cache` and `accessOrder` JS
`Map`s are association lists in insertion order (JS `Map` iterates in
insertion order; updating an existing key keeps its position, inserting a
new key appends). -/
structure CacheState where
  maxEntries : Nat
  ttlMs : Nat
  cache : List (String × CacheEntry)
  accessOrder : List (String × Nat)
  stats : CacheStats
deriving DecidableEq, Repr

/-- JS `Map.prototype.has` on the association-list model. -/
def alHas {α : Type} (m : List (String × α)) (k : String) : Bool :=
  m.any fun p => p.1 == k

/-- JS `Map.prototype.get`. -/
def alGet {α : Type} (m : List (String × α)) (k : String) : Option α :=
  (m.find? fun p => p.1 == k).map Prod.snd

/-- JS `Map.prototype.set`: update in place when the key exists, else
append. -/
def alSet {α : Type} (m : List (String × α)) (k : String) (v : α) :
    List (String × α) :=
  if alHas m k then m.map fun p => if p.1 == k then (k, v) else p
  else m ++ [(k, v)]

/-- JS `Map.prototype.delete` (the key occurs at most once in a JS `Map`;
on lists this removes every occurrence, which coincides under the nodup
invariant the `Map`s maintain). -/
def alDel {α : Type} (m : List (String × α)) (k : String) :
    List (String × α) :=
  m.filter fun p => p.1 != k

/-- A fresh `new CacheManager(maxEntries, ttlMs)`. -/
def initCache (maxEntries ttlMs : Nat) : CacheState :=
  ⟨maxEntries, ttlMs, [], [], ⟨0, 0, 0, 0⟩⟩

/-- `CacheManager._generateKey` (part_000 lines 425-435): parse the URL,
drop the fragment, stringify and lowercase; a throwing parse falls back to
the lowercased raw string. `UrlObj` carries no fragment, so stringifying
it is already the hash-free `urlObj.toString()`. -/
def generateKey (url : String) : String :=
  match parseURL url with
  | some u => strToLower (u.protocol ++ "//" ++ u.hostname ++ u.pathname ++
      u.search)
  | none => strToLower url

/-- `CacheManager._isExpired` (part_000 lines 442-444): `now - timestamp >
ttlMs`. `Nat` truncated subtraction agrees with the JS signed comparison:
a future-stamped entry gives a negative JS difference and a zero here,
and neither exceeds `ttlMs`. -/
def isExpired (c : CacheState) (e : CacheEntry) (now : Nat) : Bool :=
  decide (c.ttlMs < now - e.timestamp)

/-- The `for (const [key, time] of accessOrder)` scan of
`CacheManager._evictLRU` (part_000 lines 449-466): a left fold keeping the
first strictly smallest access time (`lruTime` starts at `Infinity`, so
the first element always replaces the initial `null`). -/
def lruStep (acc : Option (String × Nat)) (p : String × Nat) :
    Option (String × Nat) :=
  match acc with
  | none => some p
  | some q => if p.2 < q.2 then some p else acc

/-- The scan itself: `foldl` over the map in insertion order. -/
def lruScan (accessOrder : List (String × Nat)) : Option (String × Nat) :=
  accessOrder.foldl lruStep none

/-- `CacheManager._evictLRU`: delete the scanned key from both maps and
count an eviction — guarded by JS truthiness `if (lruKey)`, which skips
both the `null` of an empty map and the empty-string key. -/
def evictLRU (c : CacheState) : CacheState :=
  match lruScan c.accessOrder with
  | none => c
  | some (lruKey, _) =>
    if lruKey == "" then c
    else
      { c with
        cache := alDel c.cache lruKey
        accessOrder := alDel c.accessOrder lruKey
        stats := { c.stats with evictions := c.stats.evictions + 1 } }

/-- `CacheManager.get` (part_000 lines 473-495): returns the value (or
`none`) together with the updated cache state (expiry purge or access
refresh, plus counters). -/
def cacheGet (c : CacheState) (url : String) (now : Nat) :
    Option Assessment × CacheState :=
  let key := generateKey url
  match alGet c.cache key with
  | none =>
    (none, { c with stats := { c.stats with misses := c.stats.misses + 1 } })
  | some entry =>
    if isExpired c entry now then
      (none,
       { c with
         cache := alDel c.cache key
         accessOrder := alDel c.accessOrder key
         stats := { c.stats with misses := c.stats.misses + 1 } })
    else
      (some entry.data,
       { c with
         accessOrder := alSet c.accessOrder key now
         stats := { c.stats with hits := c.stats.hits + 1 } })

/-- `CacheManager.set` (part_000 lines 502-519): evict first when at
capacity and the key is new, then store with the current timestamp. -/
def cacheSet (c : CacheState) (url : String) (data : Assessment) (now : Nat) :
    CacheState :=
  let key := generateKey url
  let c1 :=
    if c.maxEntries ≤ c.cache.length && !alHas c.cache key then evictLRU c
    else c
  { c1 with
    cache := alSet c1.cache key ⟨data, now⟩
    accessOrder := alSet c1.accessOrder key now
    stats := { c1.stats with sets := c1.stats.sets + 1 } }

/-- `CacheManager.clear` (part_000 lines 544-553): empties both maps and
resets every counter. -/
def cacheClear (c : CacheState) : CacheState :=
  { c with cache := [], accessOrder := [], stats := ⟨0, 0, 0, 0⟩ }

/-- One `{ key, data, timestamp }` record of an exported snapshot. -/
structure SnapEntry where
  key : String
  data : Assessment
  timestamp : Nat
deriving DecidableEq, Repr

/-- The `data.entries` field as `import` observes it after `JSON.parse`:
absent or otherwise falsy (skipping the loop), present but not iterable
(the `for...of` throws — e.g. the snapshot string `{"entries": 5}`), or an
array of records. -/
inductive EntriesField where
  | absent : EntriesField
  | notIterable : EntriesField
  | list : List SnapEntry → EntriesField
deriving DecidableEq, Repr

/-- A successfully parsed snapshot object: its `entries` field and its
`stats` field (absent when the JSON had none; when present it carries all
four counters, as `export` always writes them, and the spread
`{ ...this.stats, ...data.stats }` then replaces every counter). -/
structure SnapVal where
  entries : EntriesField
  stats : Option CacheStats
deriving DecidableEq, Repr

/-- A snapshot string as `import` sees it: either `JSON.parse` throws
(malformed JSON) or it yields a parsed value. The `metadata` block written
by `export` is never read back and is not carried. -/
inductive Snapshot where
  | malformedJson : Snapshot
  | parsed : SnapVal → Snapshot
deriving DecidableEq, Repr

/-- `CacheManager.export` (part_000 lines 618-634): serialize the entries
in map order with the live stats. (The JSON string itself is modelled by
the parsed value it deterministically round-trips to.) -/
def exportSnapshot (c : CacheState) : Snapshot :=
  .parsed
    ⟨.list (c.cache.map fun p => ⟨p.1, p.2.data, p.2.timestamp⟩),
     some c.stats⟩

/-- The body of `import`'s entries loop: keep a record whose age is within
the TTL, writing both maps with the entry's original timestamp. -/
def importStep (ttl now : Nat) (acc : CacheState) (e : SnapEntry) :
    CacheState :=
  if now - e.timestamp ≤ ttl then
    { acc with
      cache := alSet acc.cache e.key ⟨e.data, e.timestamp⟩
      accessOrder := alSet acc.accessOrder e.key e.timestamp }
  else acc

/-- `CacheManager.import` (part_000 lines 641-672), with the try/catch
control flow made explicit: a `JSON.parse` failure returns `false` before
anything is touched; otherwise `this.clear()` runs first (resetting
contents AND stats), then the entries loop — which throws into the same
catch when `data.entries` is truthy but not iterable, leaving the cleared
cache behind — keeps each non-expired entry, and a present `stats` object
replaces the (just cleared) counters wholesale. -/
def importSnapshot (c : CacheState) (snap : Snapshot) (now : Nat) :
    Bool × CacheState :=
  match snap with
  | .malformedJson => (false, c)
  | .parsed v =>
    let c1 := cacheClear c
    match v.entries with
    | .notIterable => (false, c1)
    | .absent =>
      (true, { c1 with stats := v.stats.getD c1.stats })
    | .list entries =>
      let c2 := entries.foldl (importStep c.ttlMs now) c1
      (true, { c2 with stats := v.stats.getD c2.stats })

end Phish

namespace Phish

/-- Pointwise-equal predicates give equal `any`. -/
theorem any_congr {α : Type} {f g : α → Bool} (l : List α)
    (h : ∀ x ∈ l, f x = g x) : l.any f = l.any g := by
  induction l with
  | nil => rfl
  | cons a t ih =>
    simp only [List.any_cons]
    rw [h a (List.mem_cons_self a t), ih fun x hx => h x (List.mem_cons_of_mem a hx)]

/-- `alHas` is membership among the keys. -/
theorem alHas_iff_mem {α : Type} (m : List (String × α)) (k : String) :
    alHas m k = true ↔ k ∈ m.map Prod.fst := by
  induction m with
  | nil => simp [alHas]
  | cons p t ih =>
    simp only [alHas, List.any_cons, Bool.or_eq_true, beq_iff_eq,
      List.map_cons, List.mem_cons] at ih ⊢
    rw [ih, eq_comm]

/-- Setting a fresh key appends it. -/
theorem alSet_of_not_has {α : Type} {m : List (String × α)} {k : String}
    (v : α) (h : alHas m k = false) : alSet m k v = m ++ [(k, v)] := by
  simp [alSet, h]

/-- The key just set is present. -/
theorem alHas_alSet_self {α : Type} (m : List (String × α)) (k : String)
    (v : α) : alHas (alSet m k v) k = true := by
  cases h : alHas m k with
  | true =>
    have hset : alSet m k v =
        m.map fun p => if p.1 == k then (k, v) else p := by
      simp [alSet, h]
    simp only [alHas] at h
    rcases List.any_eq_true.1 h with ⟨p0, hmem, hk⟩
    rw [hset]
    simp only [alHas, List.any_map]
    exact List.any_eq_true.2 ⟨p0, hmem, by simp [Function.comp, hk]⟩
  | false =>
    rw [alSet_of_not_has v h]
    simp [alHas, List.any_append]

/-- Setting one key leaves presence of any other key unchanged. -/
theorem alHas_alSet_ne {α : Type} (m : List (String × α)) {k k' : String}
    (v : α) (hne : k' ≠ k) : alHas (alSet m k v) k' = alHas m k' := by
  have hkk : (k == k') = false := by
    simp only [beq_eq_false_iff_ne, ne_eq]
    exact fun e => hne e.symm
  cases h : alHas m k with
  | true =>
    have hset : alSet m k v =
        m.map fun p => if p.1 == k then (k, v) else p := by
      simp [alSet, h]
    rw [hset]
    simp only [alHas, List.any_map]
    refine any_congr m fun p _ => ?_
    by_cases hp : p.1 = k
    · have h2 : (p.1 == k) = true := by simp [hp]
      have h3 : (p.1 == k') = false := by
        simp only [beq_eq_false_iff_ne, ne_eq, hp]
        exact fun e => hne e.symm
      simp [Function.comp, h2, hkk, h3]
    · have h2 : (p.1 == k) = false := by simp [hp]
      simp [Function.comp, h2]
  | false =>
    rw [alSet_of_not_has v h]
    simp [alHas, List.any_append, hkk]

/-- The deleted key is gone. -/
theorem alHas_alDel_self {α : Type} (m : List (String × α)) (k : String) :
    alHas (alDel m k) k = false := by
  rw [Bool.eq_false_iff]
  intro hc
  simp only [alHas, alDel] at hc
  rcases List.any_eq_true.1 hc with ⟨p, hp, hpk⟩
  rcases List.mem_filter.1 hp with ⟨_, hne⟩
  simp only [bne_iff_ne, ne_eq] at hne
  exact hne (by simpa using hpk)

/-- Deleting one key leaves presence of any other key unchanged. -/
theorem alHas_alDel_ne {α : Type} (m : List (String × α)) {k k' : String}
    (hne : k' ≠ k) : alHas (alDel m k) k' = alHas m k' := by
  induction m with
  | nil => rfl
  | cons p t ih =>
    by_cases hp : p.1 = k
    · have h1 : (p.1 != k) = false := by simp [hp]
      have h2 : (p.1 == k') = false := by
        simp only [beq_eq_false_iff_ne, ne_eq, hp]
        exact fun e => hne e.symm
      simp only [alDel, List.filter_cons, h1, if_false, alHas, List.any_cons,
        h2, Bool.false_or] at ih ⊢
      exact ih
    · have h1 : (p.1 != k) = true := by simp [hp]
      simp only [alDel, List.filter_cons, h1, if_true, alHas, List.any_cons]
        at ih ⊢
      rw [ih]

/-- Deleting an absent key is the identity. -/
theorem alDel_of_not_has {α : Type} {m : List (String × α)} {k : String}
    (h : alHas m k = false) : alDel m k = m := by
  refine List.filter_eq_self.2 fun p hp => ?_
  simp only [bne_iff_ne, ne_eq]
  intro he
  have ht : alHas m k = true := List.any_eq_true.2 ⟨p, hp, by simp [he]⟩
  exact Bool.false_ne_true (h.symm.trans ht)

/-- Updating an existing key preserves the map's size. -/
theorem length_alSet_mem {α : Type} {m : List (String × α)} {k : String}
    (v : α) (h : alHas m k = true) : (alSet m k v).length = m.length := by
  simp [alSet, h]

/-- Inserting a fresh key grows the map by one. -/
theorem length_alSet_not_mem {α : Type} {m : List (String × α)} {k : String}
    (v : α) (h : alHas m k = false) : (alSet m k v).length = m.length + 1 := by
  simp [alSet_of_not_has v h]

/-- Deleting a present key under nodup keys shrinks the map by one. -/
theorem length_alDel_mem {α : Type} {m : List (String × α)} {k : String}
    (hnodup : (m.map Prod.fst).Nodup) (h : alHas m k = true) :
    (alDel m k).length + 1 = m.length := by
  induction m with
  | nil => simp [alHas] at h
  | cons p t ih =>
    rw [List.map_cons, List.nodup_cons] at hnodup
    obtain ⟨hnotin, hnd⟩ := hnodup
    by_cases hp : p.1 = k
    · have htk : alHas t k = false := by
        rw [Bool.eq_false_iff]
        intro hc
        exact hnotin (hp ▸ (alHas_iff_mem t k).1 hc)
      have h1 : (p.1 != k) = false := by simp [hp]
      have hdel : alDel (p :: t) k = t := by
        simp only [alDel, List.filter_cons, h1, if_false]
        exact alDel_of_not_has htk
      rw [hdel]
      simp
    · have h1 : (p.1 != k) = true := by simp [hp]
      have htk : alHas t k = true := by
        simpa [alHas, List.any_cons, hp] using h
      have hrec := ih hnd htk
      have hdel : alDel (p :: t) k = p :: alDel t k := by
        simp only [alDel, List.filter_cons, h1, if_true]
      rw [hdel]
      simp only [List.length_cons]
      omega

end Phish

namespace Phish

/-- A scan started from a present candidate stays present. -/
theorem foldl_lruStep_isSome (l : List (String × Nat)) :
    ∀ q : String × Nat, (l.foldl lruStep (some q)).isSome := by
  induction l with
  | nil => intro q; rfl
  | cons p t ih =>
    intro q
    simp only [List.foldl_cons]
    cases hq : lruStep (some q) p with
    | none => simp [lruStep] at hq; split at hq <;> simp_all
    | some r => exact ih r

/-- A nonempty access-order map always yields a victim. -/
theorem lruScan_isSome (l : List (String × Nat)) (h : l ≠ []) :
    (lruScan l).isSome := by
  cases l with
  | nil => exact absurd rfl h
  | cons p t =>
    simp only [lruScan, List.foldl_cons]
    have : lruStep none p = some p := rfl
    rw [this]
    exact foldl_lruStep_isSome t p

/-- The scan's result comes from the list or from the seed. -/
theorem foldl_lruStep_mem (l : List (String × Nat)) :
    ∀ (acc : Option (String × Nat)) (r : String × Nat),
      l.foldl lruStep acc = some r → r ∈ l ∨ acc = some r := by
  induction l with
  | nil => intro acc r h; exact Or.inr h
  | cons p t ih =>
    intro acc r h
    simp only [List.foldl_cons] at h
    rcases ih (lruStep acc p) r h with hm | he
    · exact Or.inl (List.mem_cons_of_mem p hm)
    · cases acc with
      | none =>
        simp only [lruStep] at he
        exact Or.inl (by rw [← Option.some_inj.1 he]; exact List.mem_cons_self p t)
      | some q =>
        simp only [lruStep] at he
        split at he
        · exact Or.inl (by rw [← Option.some_inj.1 he]; exact List.mem_cons_self p t)
        · exact Or.inr he

/-- The scan's result has the minimum time of the list and of the seed. -/
theorem foldl_lruStep_min (l : List (String × Nat)) :
    ∀ (acc : Option (String × Nat)) (r : String × Nat),
      l.foldl lruStep acc = some r →
      (∀ x ∈ l, r.2 ≤ x.2) ∧ (∀ q, acc = some q → r.2 ≤ q.2) := by
  induction l with
  | nil =>
    intro acc r h
    exact ⟨fun x hx => absurd hx (List.not_mem_nil x),
      fun q hq => le_of_eq (congrArg Prod.snd (Option.some_inj.1 (hq ▸ h)).symm)⟩
  | cons p t ih =>
    intro acc r h
    simp only [List.foldl_cons] at h
    obtain ⟨h1, h2⟩ := ih (lruStep acc p) r h
    have hstep : ∀ q0, lruStep acc p = some q0 → q0.2 ≤ p.2 := by
      intro q0 hq0
      cases acc with
      | none =>
        simp only [lruStep] at hq0
        exact le_of_eq (congrArg Prod.snd (Option.some_inj.1 hq0).symm)
      | some q =>
        simp only [lruStep] at hq0
        split at hq0
        · exact le_of_eq (congrArg Prod.snd (Option.some_inj.1 hq0).symm)
        · rw [← Option.some_inj.1 hq0]
          omega
    have hsome : ∃ q0, lruStep acc p = some q0 := by
      cases acc with
      | none => exact ⟨p, rfl⟩
      | some q =>
        simp only [lruStep]
        split
        · exact ⟨p, rfl⟩
        · exact ⟨q, rfl⟩
    obtain ⟨q0, hq0⟩ := hsome
    refine ⟨fun x hx => ?_, fun q hq => ?_⟩
    · rcases List.mem_cons.1 hx with rfl | hxt
      · exact le_trans (h2 q0 hq0) (hstep q0 hq0)
      · exact h1 x hxt
    · have hq0le : q0.2 ≤ q.2 := by
        rw [hq] at hq0
        simp only [lruStep] at hq0
        split at hq0
        · rw [← Option.some_inj.1 hq0]; omega
        · exact le_of_eq (congrArg Prod.snd (Option.some_inj.1 hq0).symm)
      exact le_trans (h2 q0 hq0) hq0le

/-- The LRU scan picks an element of the access-order map. -/
theorem lruScan_mem {l : List (String × Nat)} {r : String × Nat}
    (h : lruScan l = some r) : r ∈ l := by
  rcases foldl_lruStep_mem l none r h with hm | he
  · exact hm
  · exact absurd he (by simp)

/-- The LRU scan picks a minimal access time. -/
theorem lruScan_min {l : List (String × Nat)} {r : String × Nat}
    (h : lruScan l = some r) : ∀ x ∈ l, r.2 ≤ x.2 :=
  (foldl_lruStep_min l none r h).1

end Phish

namespace Phish

/-- `alHas` distributes over append. -/
theorem alHas_append {α : Type} (m m' : List (String × α)) (k : String) :
    alHas (m ++ m') k = (alHas m k || alHas m' k) :=
  List.any_append

/-- The well-formedness invariant every reachable `CacheManager` state
satisfies: `cache` and `accessOrder` hold exactly the same keys in the
same order (every operation writes or deletes both maps together), the
keys are distinct (JS `Map` keys are unique), and no key is the empty
string (`_generateKey` of the URLs the detector caches is never empty;
the invariant matters because `_evictLRU`'s `if (lruKey)` treats the
empty-string key as falsy and would skip eviction). -/
def WF (c : CacheState) : Prop :=
  c.cache.map Prod.fst = c.accessOrder.map Prod.fst ∧
  (c.cache.map Prod.fst).Nodup ∧
  "" ∉ c.cache.map Prod.fst

/-- Unrolling `import`'s entries loop over fresh, distinct keys: the kept
(non-expired) records are appended to both maps in order. -/
theorem foldl_importStep (ttl now : Nat) :
    ∀ (l : List SnapEntry) (acc : CacheState),
      (l.map SnapEntry.key).Nodup →
      (∀ e ∈ l, alHas acc.cache e.key = false) →
      (∀ e ∈ l, alHas acc.accessOrder e.key = false) →
      l.foldl (importStep ttl now) acc =
        { acc with
          cache := acc.cache ++
            ((l.filter fun e => decide (now - e.timestamp ≤ ttl)).map
              fun e => (e.key, ⟨e.data, e.timestamp⟩)),
          accessOrder := acc.accessOrder ++
            ((l.filter fun e => decide (now - e.timestamp ≤ ttl)).map
              fun e => (e.key, e.timestamp)) } := by
  intro l
  induction l with
  | nil =>
    intro acc _ _ _
    simp
  | cons e t ih =>
    intro acc hnodup hfc hfa
    rw [List.map_cons, List.nodup_cons] at hnodup
    obtain ⟨hnotin, hnd⟩ := hnodup
    have hkey_ne : ∀ e' ∈ t, (e.key == e'.key) = false := by
      intro e' he'
      simp only [beq_eq_false_iff_ne, ne_eq]
      intro heq
      exact hnotin (heq ▸ List.mem_map.2 ⟨e', he', rfl⟩)
    by_cases hk : now - e.timestamp ≤ ttl
    · have hstep : importStep ttl now acc e =
          { acc with
            cache := acc.cache ++ [(e.key, ⟨e.data, e.timestamp⟩)],
            accessOrder := acc.accessOrder ++ [(e.key, e.timestamp)] } := by
        simp only [importStep, hk, if_true]
        rw [alSet_of_not_has _ (hfc e (List.mem_cons_self e t)),
          alSet_of_not_has _ (hfa e (List.mem_cons_self e t))]
      have hfr : ∀ e' ∈ t,
          alHas (acc.cache ++ [(e.key, (⟨e.data, e.timestamp⟩ : CacheEntry))])
            e'.key = false := by
        intro e' he'
        have h1 : alHas acc.cache e'.key = false :=
          hfc e' (List.mem_cons_of_mem e he')
        have h2 : alHas [(e.key, (⟨e.data, e.timestamp⟩ : CacheEntry))]
            e'.key = false := by
          simp [alHas, hkey_ne e' he']
        rw [alHas_append, h1, h2]
        rfl
      have hfr2 : ∀ e' ∈ t,
          alHas (acc.accessOrder ++ [(e.key, e.timestamp)]) e'.key = false := by
        intro e' he'
        have h1 : alHas acc.accessOrder e'.key = false :=
          hfa e' (List.mem_cons_of_mem e he')
        have h2 : alHas [(e.key, e.timestamp)] e'.key = false := by
          simp [alHas, hkey_ne e' he']
        rw [alHas_append, h1, h2]
        rfl
      rw [List.foldl_cons, hstep, ih _ hnd hfr hfr2]
      have hfil : (e :: t).filter (fun e => decide (now - e.timestamp ≤ ttl)) =
          e :: t.filter (fun e => decide (now - e.timestamp ≤ ttl)) := by
        rw [List.filter_cons, if_pos (by simpa using hk)]
      rw [hfil]
      simp [List.append_assoc]
    · have hstep : importStep ttl now acc e = acc := by
        simp [importStep, hk]
      have hfil : (e :: t).filter (fun e => decide (now - e.timestamp ≤ ttl)) =
          t.filter (fun e => decide (now - e.timestamp ≤ ttl)) := by
        rw [List.filter_cons, if_neg (by simpa using hk)]
      rw [List.foldl_cons, hstep, ih _ hnd
        (fun e' he' => hfc e' (List.mem_cons_of_mem e he'))
        (fun e' he' => hfa e' (List.mem_cons_of_mem e he')), hfil]

end Phish

namespace Phish

/-- A single character that occurs in a string is found by the substring
scan. -/
theorem containsSub_singleton_of_mem {hay : List Char} {ch : Char}
    (h : ch ∈ hay) : containsSub hay [ch] = true := by
  induction hay with
  | nil => cases h
  | cons a t ih =>
    rcases List.mem_cons.1 h with rfl | ht
    · have hpre : [ch].isPrefixOf (ch :: t) = true := by
        simp [List.isPrefixOf]
      unfold containsSub
      rw [hpre]
      rfl
    · unfold containsSub
      simp [ih ht]

/-- The homograph alternates table contains the ASCII characters `l` and
`1` (alternates of `i`) and `0` (alternate of `o`), so any domain
containing one of them is reported as a homograph attack. -/
theorem detectHomographAttack_of_ascii (domain : String)
    (h : 'l' ∈ domain.data ∨ '0' ∈ domain.data ∨ '1' ∈ domain.data) :
    detectHomographAttack domain = true := by
  unfold detectHomographAttack
  rw [Bool.or_eq_true]
  refine Or.inr ?_
  rcases h with h | h | h
  · exact List.any_eq_true.2 ⟨('i', ['і', 'ı', '1', 'l']), by decide,
      List.any_eq_true.2 ⟨'l', by decide, containsSub_singleton_of_mem h⟩⟩
  · exact List.any_eq_true.2 ⟨('o', ['о', 'ο', '0']), by decide,
      List.any_eq_true.2 ⟨'0', by decide, containsSub_singleton_of_mem h⟩⟩
  · exact List.any_eq_true.2 ⟨('i', ['і', 'ı', '1', 'l']), by decide,
      List.any_eq_true.2 ⟨'1', by decide, containsSub_singleton_of_mem h⟩⟩

/-- The value `get` returns is a function of `cache` and `ttlMs` alone. -/
theorem cacheGet_fst_congr (c1 c2 : CacheState) (u : String) (t : Nat)
    (hc : c1.cache = c2.cache) (ht : c1.ttlMs = c2.ttlMs) :
    (cacheGet c1 u t).1 = (cacheGet c2 u t).1 := by
  cases hg : alGet c2.cache (generateKey u) with
  | none => simp [cacheGet, isExpired, hc, ht, hg]
  | some e =>
    simp only [cacheGet, isExpired, hc, ht, hg]
    split <;> rfl

end Phish

namespace Phish

/-- C1 (counterexample): contrary to the spec's scenario B,
`analyze("https://accounts.google.com/signin")` with no document and the
default configuration does NOT return score 0 / level "safe". -/
theorem analyze_google_signin_not_safe :
    ¬((analyze CONFIG "https://accounts.google.com/signin" none 0).score = 0 ∧
      (analyze CONFIG "https://accounts.google.com/signin" none 0).level =
        "safe") := by
  decide

/-- C1 (amended): on `https://accounts.google.com/signin` the IP, TLD and
typosquatting rules indeed do not fire, but the homograph rule does — the
host contains the ASCII letter `l`, which the homograph table lists as a
lookalike alternate of `i` — so the call returns score 40
(`HOMOGRAPH_ATTACK`), level "medium", with the homograph threat as the
only threat. -/
theorem analyze_google_signin_eval :
    analyze CONFIG "https://accounts.google.com/signin" none 0 =
      ⟨40, "medium", ["Possible homograph attack (lookalike characters)"], 0,
       none⟩ ∧
    detectTyposquatting CONFIG "accounts.google.com" = none ∧
    ipPattern "https://accounts.google.com/signin" = false ∧
    (CONFIG.patterns.suspiciousTLDs.any
      fun tld => strEndsWith "accounts.google.com" tld) = false := by
  decide

/-- C2 (counterexample): `detectTyposquatting("arnaz0n.com")` does not
return `amazon.com`. -/
theorem detectTyposquatting_arnaz0n_not_amazon :
    detectTyposquatting CONFIG "arnaz0n.com" ≠ some "amazon.com" := by
  decide

/-- C2 (amended): `detectTyposquatting("arnaz0n.com")` finds no match at
all. The Levenshtein test runs on the raw label — `arnaz0n` is at
distance 3 from `amazon`, beyond `MAX_LEVENSHTEIN_DISTANCE = 2` — while
substitution-normalization is only compared for exact equality, and it
maps `arnaz0n` to `arnazons` (the `'$': 's'` table entry is compiled as
the regex `/$/g`, which appends an `s`), which differs from `amazon`;
keyboard proximity scores 1.5/7 ≤ 0.8. So `analyze` of a URL with this
host adds no typosquatting weight; the URL still scores 40 because the
digit `0` in the host fires the homograph rule. -/
theorem detectTyposquatting_arnaz0n_none :
    detectTyposquatting CONFIG "arnaz0n.com" = none ∧
    levenshtein "amazon".data "arnaz0n".data = 3 ∧
    charSubNormalize "arnaz0n".data = "arnazons".data ∧
    keyboardProximityAttack CONFIG "arnaz0n".data "amazon".data = false ∧
    analyzeURL CONFIG "https://arnaz0n.com/" =
      ⟨40, ["Possible homograph attack (lookalike characters)"]⟩ := by
  decide

/-- C3 (counterexample): a malformed URL together with a document is NOT
a safe zero-score result for the entire call — the content pass still
runs; eleven exclamation marks in the body score `EXCESSIVE_EXCLAMATIONS
= 10` with a threat. -/
theorem analyze_malformed_with_doc_not_zero :
    parseURL "not a url" = none ∧
    ¬((analyze CONFIG "not a url"
        (some ⟨"!!!!!!!!!!!", [], [], [], [], "", false⟩) 0).score = 0 ∧
      (analyze CONFIG "not a url"
        (some ⟨"!!!!!!!!!!!", [], [], [], [], "", false⟩) 0).threats = []) := by
  decide

/-- C3 (amended): a URL parse failure zeroes only the URL pass (and the
form pass, which parses the URL itself); with no document the whole call
is the safe zero result, but with a document the content and behavior
passes still run and can contribute. -/
theorem analyze_malformed_url_pass_zero (url : String) (now : Nat)
    (h : parseURL url = none) :
    (analyze CONFIG url none now).score = 0 ∧
    (analyze CONFIG url none now).level = "safe" ∧
    (analyze CONFIG url none now).threats = [] ∧
    analyzeURL CONFIG url = ⟨0, []⟩ ∧
    ∀ d : Doc, analyzeForms CONFIG d url = ⟨0, []⟩ := by
  have hurl : analyzeURL CONFIG url = ⟨0, []⟩ := by
    simp [analyzeURL, h]
  have hforms : ∀ d : Doc, analyzeForms CONFIG d url = ⟨0, []⟩ := by
    intro d
    simp [analyzeForms, h]
  have hrl : getRiskLevel CONFIG 0 = "safe" := by decide
  by_cases he : url = ""
  · subst he
    refine ⟨?_, ?_, ?_, hurl, hforms⟩ <;> rfl
  · have he' : (url == "") = false := by simp [he]
    refine ⟨?_, ?_, ?_, hurl, hforms⟩ <;>
      simp [analyze, he', hurl, hrl, createSafeResult]

/-- C3 (witness). -/
theorem analyze_malformed_url_pass_zero_witness :
    parseURL "nonsense" = none ∧
    ((analyze CONFIG "nonsense" none 3).score = 0 ∧
     (analyze CONFIG "nonsense" none 3).level = "safe" ∧
     (analyze CONFIG "nonsense" none 3).threats = [] ∧
     analyzeURL CONFIG "nonsense" = ⟨0, []⟩ ∧
     ∀ d : Doc, analyzeForms CONFIG d "nonsense" = ⟨0, []⟩) :=
  ⟨by decide, analyze_malformed_url_pass_zero "nonsense" 3 (by decide)⟩

/-- C7: the risk level is the four-threshold chain of the default
configuration — crossing exactly at 20/40/60/80 — and the score is not
clamped at 100: a URL firing the IP, non-HTTPS-sensitive, homograph and
@-symbol rules scores 115 and the assessment keeps 115, classified
"critical". -/
theorem getRiskLevel_thresholds :
    (∀ score : Nat, getRiskLevel CONFIG score =
      if 80 ≤ score then "critical"
      else if 60 ≤ score then "high"
      else if 40 ≤ score then "medium"
      else if 20 ≤ score then "low"
      else "safe") ∧
    getRiskLevel CONFIG 20 = "low" ∧ getRiskLevel CONFIG 40 = "medium" ∧
    getRiskLevel CONFIG 60 = "high" ∧ getRiskLevel CONFIG 80 = "critical" ∧
    getRiskLevel CONFIG 19 = "safe" ∧ getRiskLevel CONFIG 39 = "low" ∧
    getRiskLevel CONFIG 59 = "medium" ∧ getRiskLevel CONFIG 79 = "high" ∧
    (analyze CONFIG "http://1.2.3.4/login@x" none 0).score = 115 ∧
    (analyze CONFIG "http://1.2.3.4/login@x" none 0).level = "critical" := by
  refine ⟨fun score => rfl, ?_⟩
  decide

/-- C9: every hostname containing a plain ASCII `l`, `0` or `1` is
reported by the homograph detector (these characters are listed among the
lookalike alternates of `i` and `o`), and the URL pass therefore adds the
`HOMOGRAPH_ATTACK` weight of 40 with the homograph threat even for
ordinary hosts such as `google.com` and `paypal.com`. -/
theorem homograph_fires_on_ascii (domain : String)
    (h : 'l' ∈ domain.data ∨ '0' ∈ domain.data ∨ '1' ∈ domain.data) :
    detectHomographAttack domain = true ∧
    analyzeURL CONFIG "https://google.com/" =
      ⟨40, ["Possible homograph attack (lookalike characters)"]⟩ ∧
    analyzeURL CONFIG "https://paypal.com/" =
      ⟨40, ["Possible homograph attack (lookalike characters)"]⟩ :=
  ⟨detectHomographAttack_of_ascii domain h, by decide, by decide⟩

/-- C9 (witness). -/
theorem homograph_fires_on_ascii_witness :
    ('l' ∈ "google.com".data ∨ '0' ∈ "google.com".data ∨
      '1' ∈ "google.com".data) ∧
    (detectHomographAttack "google.com" = true ∧
     analyzeURL CONFIG "https://google.com/" =
       ⟨40, ["Possible homograph attack (lookalike characters)"]⟩ ∧
     analyzeURL CONFIG "https://paypal.com/" =
       ⟨40, ["Possible homograph attack (lookalike characters)"]⟩) :=
  ⟨by decide, homograph_fires_on_ascii "google.com" (by decide)⟩

end Phish

namespace Phish

/-- What `_evictLRU` does on a state whose maps agree on keys, none of
them empty: it removes, from both maps, a key holding the minimum access
time. -/
theorem evictLRU_spec (c : CacheState)
    (hkeys : c.cache.map Prod.fst = c.accessOrder.map Prod.fst)
    (hempty : "" ∉ c.cache.map Prod.fst)
    (hne : c.cache ≠ []) :
    ∃ lruKey lruTime,
      lruScan c.accessOrder = some (lruKey, lruTime) ∧
      (∀ q ∈ c.accessOrder, lruTime ≤ q.2) ∧
      lruKey ∈ c.cache.map Prod.fst ∧
      (evictLRU c).cache = alDel c.cache lruKey ∧
      (evictLRU c).accessOrder = alDel c.accessOrder lruKey ∧
      (evictLRU c).maxEntries = c.maxEntries ∧
      (evictLRU c).ttlMs = c.ttlMs := by
  have hao_ne : c.accessOrder ≠ [] := by
    intro h0
    apply hne
    have hmapnil : c.cache.map Prod.fst = [] := by rw [hkeys, h0]; rfl
    exact List.map_eq_nil_iff.1 hmapnil
  obtain ⟨r, hscan⟩ := Option.isSome_iff_exists.1 (lruScan_isSome _ hao_ne)
  obtain ⟨lruKey, lruTime⟩ := r
  have hmem : (lruKey, lruTime) ∈ c.accessOrder := lruScan_mem hscan
  have hkeymem : lruKey ∈ c.cache.map Prod.fst := by
    rw [hkeys]
    exact List.mem_map.2 ⟨(lruKey, lruTime), hmem, rfl⟩
  have hlru_ne : lruKey ≠ "" := fun h0 => hempty (h0 ▸ hkeymem)
  have hlru_ne' : (lruKey == "") = false := by simp [hlru_ne]
  refine ⟨lruKey, lruTime, hscan, fun q hq => lruScan_min hscan q hq,
    hkeymem, ?_, ?_, ?_, ?_⟩ <;>
    simp [evictLRU, hscan, hlru_ne']

/-- C6: when `set` is called on a well-formed cache at capacity with a
new key, the evicted entry is one whose `lastAccessedAt` is minimal over
the whole access-order map (true LRU by recency): the victim's key leaves
the cache, every other resident key survives, and the new key is stored. -/
theorem cacheSet_evicts_least_recently_accessed (c : CacheState)
    (url : String) (data : Assessment) (now : Nat) (hwf : WF c)
    (hcap : c.maxEntries ≤ c.cache.length)
    (hnew : alHas c.cache (generateKey url) = false)
    (hne : c.cache ≠ []) :
    ∃ lruKey lruTime,
      lruScan c.accessOrder = some (lruKey, lruTime) ∧
      (∀ q ∈ c.accessOrder, lruTime ≤ q.2) ∧
      alHas (cacheSet c url data now).cache lruKey = false ∧
      (∀ k ∈ c.cache.map Prod.fst, k ≠ lruKey →
        alHas (cacheSet c url data now).cache k = true) ∧
      alHas (cacheSet c url data now).cache (generateKey url) = true := by
  obtain ⟨hkeys, hnodup, hempty⟩ := hwf
  obtain ⟨lruKey, lruTime, hscan, hmin, hkeymem, hevc, _, _, _⟩ :=
    evictLRU_spec c hkeys hempty hne
  have hlru_has : alHas c.cache lruKey = true := (alHas_iff_mem _ _).2 hkeymem
  have hlru_ne_key : lruKey ≠ generateKey url := by
    intro h0
    rw [h0, hnew] at hlru_has
    exact Bool.false_ne_true hlru_has
  have hcond : (decide (c.maxEntries ≤ c.cache.length) &&
      !alHas c.cache (generateKey url)) = true := by
    simp [hcap, hnew]
  have hset : (cacheSet c url data now).cache =
      alSet (alDel c.cache lruKey) (generateKey url) ⟨data, now⟩ := by
    simp only [cacheSet, hcond, if_true, hevc]
  refine ⟨lruKey, lruTime, hscan, hmin, ?_, ?_, ?_⟩
  · rw [hset, alHas_alSet_ne _ _ hlru_ne_key, alHas_alDel_self]
  · intro k hk hkne
    rw [hset]
    by_cases hkk : k = generateKey url
    · rw [hkk]
      exact alHas_alSet_self _ _ _
    · rw [alHas_alSet_ne _ _ hkk, alHas_alDel_ne _ hkne,
        (alHas_iff_mem _ _).2 hk]
  · rw [hset]
    exact alHas_alSet_self _ _ _

end Phish

namespace Phish

/-- A fixed assessment used by the concrete cache scenarios below. -/
def concreteAssessment : Assessment :=
  ⟨40, "medium", ["Possible homograph attack (lookalike characters)"], 5, none⟩

/-- C6 (witness scenario): capacity 2; `k1` inserted at t=1, `k2` at t=2,
`k1` refreshed by a `get` at t=3, then `k3` inserted at t=4 — the
refreshed `k1` survives and `k2`, with the smallest last-access time, is
evicted. -/
def lruScenario : CacheState :=
  (cacheGet
    (cacheSet (cacheSet (initCache 2 1000) "k1" concreteAssessment 1)
      "k2" concreteAssessment 2)
    "k1" 3).2

/-- C6 (witness). -/
theorem cacheSet_evicts_least_recently_accessed_witness :
    (WF lruScenario ∧ lruScenario.maxEntries ≤ lruScenario.cache.length ∧
      alHas lruScenario.cache (generateKey "k3") = false ∧
      lruScenario.cache ≠ []) ∧
    (∃ lruKey lruTime,
      lruScan lruScenario.accessOrder = some (lruKey, lruTime) ∧
      (∀ q ∈ lruScenario.accessOrder, lruTime ≤ q.2) ∧
      alHas (cacheSet lruScenario "k3" concreteAssessment 4).cache lruKey =
        false ∧
      (∀ k ∈ lruScenario.cache.map Prod.fst, k ≠ lruKey →
        alHas (cacheSet lruScenario "k3" concreteAssessment 4).cache k =
          true) ∧
      alHas (cacheSet lruScenario "k3" concreteAssessment 4).cache
        (generateKey "k3") = true) ∧
    alHas (cacheSet lruScenario "k3" concreteAssessment 4).cache "k1" =
      true ∧
    alHas (cacheSet lruScenario "k3" concreteAssessment 4).cache "k2" =
      false :=
  ⟨⟨⟨by decide, by decide, by decide⟩, by decide, by decide, by decide⟩,
   cacheSet_evicts_least_recently_accessed lruScenario "k3"
     concreteAssessment 4 ⟨by decide, by decide, by decide⟩ (by decide)
     (by decide) (by decide),
   by decide, by decide⟩

end Phish

namespace Phish

/-- A well-formed snapshot holding three non-expired entries, more than
the capacity 2 of the cache it is imported into. -/
def overfullSnapshot : Snapshot :=
  .parsed
    ⟨.list [⟨"a", concreteAssessment, 0⟩, ⟨"b", concreteAssessment, 0⟩,
      ⟨"c", concreteAssessment, 0⟩], none⟩

/-- C10: `set` preserves the size bound on every well-formed cache within
the bound (for a positive capacity), but `import` does not enforce it: a
well-formed snapshot with three non-expired entries imports successfully
into an empty capacity-2 cache, leaving 3 > 2 entries resident. -/
theorem cacheSet_bounded_but_import_unbounded (c : CacheState)
    (url : String) (data : Assessment) (now : Nat) (hwf : WF c)
    (hpos : 0 < c.maxEntries)
    (hsize : c.cache.length ≤ c.maxEntries) :
    (cacheSet c url data now).cache.length ≤ c.maxEntries ∧
    ((initCache 2 100).maxEntries = 2 ∧
     (importSnapshot (initCache 2 100) overfullSnapshot 0).1 = true ∧
     (initCache 2 100).maxEntries <
       (importSnapshot (initCache 2 100) overfullSnapshot 0).2.cache.length) := by
  refine ⟨?_, by decide, by decide, by decide⟩
  obtain ⟨hkeys, hnodup, hempty⟩ := hwf
  by_cases hhas : alHas c.cache (generateKey url) = true
  · have hcond : (decide (c.maxEntries ≤ c.cache.length) &&
        !alHas c.cache (generateKey url)) = false := by
      simp [hhas]
    have hc : (cacheSet c url data now).cache =
        alSet c.cache (generateKey url) ⟨data, now⟩ := by
      simp only [cacheSet, hcond, Bool.false_eq_true, if_false]
    rw [hc, length_alSet_mem _ hhas]
    exact hsize
  · have hhas' : alHas c.cache (generateKey url) = false :=
      Bool.not_eq_true _ ▸ eq_false_of_ne_true hhas
    by_cases hcap : c.maxEntries ≤ c.cache.length
    · have hlen : c.cache.length = c.maxEntries := le_antisymm hsize hcap
      have hne : c.cache ≠ [] := by
        intro h0
        rw [h0] at hlen
        simp at hlen
        omega
      obtain ⟨lruKey, lruTime, _, _, hkeymem, hevc, _, _, _⟩ :=
        evictLRU_spec c hkeys hempty hne
      have hdel_len : (alDel c.cache lruKey).length + 1 = c.cache.length :=
        length_alDel_mem hnodup ((alHas_iff_mem _ _).2 hkeymem)
      have hfresh : alHas (alDel c.cache lruKey) (generateKey url) = false := by
        by_cases hk2 : generateKey url = lruKey
        · rw [hk2]
          exact alHas_alDel_self _ _
        · rw [alHas_alDel_ne _ hk2]
          exact hhas'
      have hcond : (decide (c.maxEntries ≤ c.cache.length) &&
          !alHas c.cache (generateKey url)) = true := by
        simp [hcap, hhas']
      have hc : (cacheSet c url data now).cache =
          alSet (alDel c.cache lruKey) (generateKey url) ⟨data, now⟩ := by
        simp only [cacheSet, hcond, if_true, hevc]
      rw [hc, length_alSet_not_mem _ hfresh]
      omega
    · have hlt : c.cache.length < c.maxEntries := Nat.lt_of_not_le hcap
      have hcond : (decide (c.maxEntries ≤ c.cache.length) &&
          !alHas c.cache (generateKey url)) = false := by
        simp [hcap]
      have hc : (cacheSet c url data now).cache =
          alSet c.cache (generateKey url) ⟨data, now⟩ := by
        simp only [cacheSet, hcond, Bool.false_eq_true, if_false]
      rw [hc, length_alSet_not_mem _ hhas']
      omega

/-- C10 (witness). -/
theorem cacheSet_bounded_but_import_unbounded_witness :
    (WF lruScenario ∧ 0 < lruScenario.maxEntries ∧
      lruScenario.cache.length ≤ lruScenario.maxEntries) ∧
    ((cacheSet lruScenario "k9" concreteAssessment 7).cache.length ≤
      lruScenario.maxEntries ∧
     ((initCache 2 100).maxEntries = 2 ∧
      (importSnapshot (initCache 2 100) overfullSnapshot 0).1 = true ∧
      (initCache 2 100).maxEntries <
        (importSnapshot (initCache 2 100) overfullSnapshot
          0).2.cache.length)) :=
  ⟨⟨⟨by decide, by decide, by decide⟩, by decide, by decide⟩,
   cacheSet_bounded_but_import_unbounded lruScenario "k9" concreteAssessment
     7 ⟨by decide, by decide, by decide⟩ (by decide) (by decide)⟩

end Phish

namespace Phish

/-- A populated cache with nonzero counters for the import
counterexamples: one entry stored, so `stats.sets = 1`. -/
def populatedCache : CacheState :=
  cacheSet (initCache 1000 1800000) "https://a.com/" concreteAssessment 5

/-- C4 (counterexample): importing a snapshot whose counters are all zero
into a cache whose `sets` counter is 1 leaves `sets = 0`, not the
claimed additive `1 + 0 = 1`: `import` runs `clear()` first, which resets
the pre-import stats, and the snapshot's counters then replace them. -/
theorem importSnapshot_stats_not_additive :
    populatedCache.stats.sets = 1 ∧
    (importSnapshot populatedCache
      (.parsed ⟨.list [], some ⟨0, 0, 0, 0⟩⟩) 6).2.stats ≠
      ⟨populatedCache.stats.hits + 0, populatedCache.stats.misses + 0,
       populatedCache.stats.evictions + 0, populatedCache.stats.sets + 0⟩ := by
  decide

/-- Net effect of `import` on a parsed snapshot with an entries array of
distinct keys and a stats object: success, contents replaced by the
non-expired entries, stats replaced by the snapshot's stats. -/
theorem importSnapshot_list_eq (c : CacheState)
    (l : List SnapEntry) (st : CacheStats) (now : Nat)
    (hnodup : (l.map SnapEntry.key).Nodup) :
    importSnapshot c (.parsed ⟨.list l, some st⟩) now =
      (true,
       { maxEntries := c.maxEntries, ttlMs := c.ttlMs,
         cache := (l.filter fun e => decide (now - e.timestamp ≤ c.ttlMs)).map
           fun e => (e.key, ⟨e.data, e.timestamp⟩),
         accessOrder :=
           (l.filter fun e => decide (now - e.timestamp ≤ c.ttlMs)).map
             fun e => (e.key, e.timestamp),
         stats := st }) := by
  simp only [importSnapshot]
  rw [foldl_importStep c.ttlMs now l (cacheClear c) hnodup
    (fun e _ => rfl) (fun e _ => rfl)]
  simp [cacheClear]

/-- C4 (amended): for a well-formed snapshot (entries with distinct keys
and a stats object), `import` returns true, replaces the contents with
exactly the snapshot's non-expired entries — entries older than the TTL
are silently dropped — and REPLACES the stats counters with the
snapshot's counters: the pre-import stats are discarded by the internal
`clear()`, not merged additively. -/
theorem importSnapshot_replaces_contents_and_stats (c : CacheState)
    (l : List SnapEntry) (st : CacheStats) (now : Nat)
    (hnodup : (l.map SnapEntry.key).Nodup) :
    importSnapshot c (.parsed ⟨.list l, some st⟩) now =
      (true,
       { maxEntries := c.maxEntries, ttlMs := c.ttlMs,
         cache := (l.filter fun e => decide (now - e.timestamp ≤ c.ttlMs)).map
           fun e => (e.key, ⟨e.data, e.timestamp⟩),
         accessOrder :=
           (l.filter fun e => decide (now - e.timestamp ≤ c.ttlMs)).map
             fun e => (e.key, e.timestamp),
         stats := st }) :=
  importSnapshot_list_eq c l st now hnodup

/-- C4 (witness): a two-entry snapshot, one entry already expired, into a
populated cache. -/
theorem importSnapshot_replaces_contents_and_stats_witness :
    ([⟨"x", concreteAssessment, 90⟩,
      (⟨"y", concreteAssessment, 10⟩ : SnapEntry)].map SnapEntry.key).Nodup ∧
    importSnapshot (cacheSet (initCache 5 50) "z" concreteAssessment 80)
      (.parsed ⟨.list [⟨"x", concreteAssessment, 90⟩,
        ⟨"y", concreteAssessment, 10⟩], some ⟨7, 8, 9, 10⟩⟩) 100 =
      (true,
       { maxEntries := 5, ttlMs := 50,
         cache := [("x", ⟨concreteAssessment, 90⟩)],
         accessOrder := [("x", 90)],
         stats := ⟨7, 8, 9, 10⟩ }) := by
  refine ⟨by decide, ?_⟩
  rw [importSnapshot_replaces_contents_and_stats
    (cacheSet (initCache 5 50) "z" concreteAssessment 80)
    [⟨"x", concreteAssessment, 90⟩, ⟨"y", concreteAssessment, 10⟩]
    ⟨7, 8, 9, 10⟩ 100 (by decide)]
  decide

/-- C5 (counterexample): a malformed snapshot whose JSON parses but whose
`entries` field is not iterable (e.g. the string `{"entries": 5}`) makes
`import` return false with the cache NOT left untouched: the internal
`clear()` has already emptied the contents and reset the stats when the
entries loop throws. -/
theorem importSnapshot_notIterable_not_untouched :
    (importSnapshot populatedCache (.parsed ⟨.notIterable, none⟩) 6).1 =
      false ∧
    (importSnapshot populatedCache (.parsed ⟨.notIterable, none⟩) 6).2 ≠
      populatedCache := by
  decide

/-- C5 (amended): `import` of a snapshot string that fails JSON parsing
returns false and leaves the cache completely untouched; but for a
parseable string whose `entries` field is truthy yet not iterable it
returns false with the cache already cleared (contents gone, stats
reset). -/
theorem importSnapshot_failure_modes (c : CacheState) (now : Nat)
    (stO : Option CacheStats) :
    importSnapshot c .malformedJson now = (false, c) ∧
    importSnapshot c (.parsed ⟨.notIterable, stO⟩) now =
      (false, cacheClear c) :=
  ⟨rfl, rfl⟩

/-- C8: on a well-formed cache all of whose entries are live at import
time, `import(export())` succeeds, reproduces the cache contents exactly,
and `get` returns the identical value for every URL — previously stored
keys included, all other URLs still absent. -/
theorem export_import_roundtrip (c : CacheState) (now : Nat)
    (hnodup : (c.cache.map Prod.fst).Nodup)
    (hlive : ∀ p ∈ c.cache, now - p.2.timestamp ≤ c.ttlMs) :
    (importSnapshot c (exportSnapshot c) now).1 = true ∧
    (importSnapshot c (exportSnapshot c) now).2.cache = c.cache ∧
    ∀ (u : String) (t : Nat),
      (cacheGet (importSnapshot c (exportSnapshot c) now).2 u t).1 =
        (cacheGet c u t).1 := by
  have hnodup' : ((c.cache.map fun p =>
      (⟨p.1, p.2.data, p.2.timestamp⟩ : SnapEntry)).map SnapEntry.key).Nodup := by
    rw [List.map_map]
    exact hnodup
  have him := importSnapshot_list_eq c
    (c.cache.map fun p => ⟨p.1, p.2.data, p.2.timestamp⟩) c.stats now hnodup'
  have hfil : (c.cache.map fun p =>
      (⟨p.1, p.2.data, p.2.timestamp⟩ : SnapEntry)).filter
        (fun e => decide (now - e.timestamp ≤ c.ttlMs)) =
      c.cache.map fun p => ⟨p.1, p.2.data, p.2.timestamp⟩ := by
    refine List.filter_eq_self.2 fun e he => ?_
    rcases List.mem_map.1 he with ⟨p, hp, rfl⟩
    simpa using hlive p hp
  have hid : ((c.cache.map fun p =>
      (⟨p.1, p.2.data, p.2.timestamp⟩ : SnapEntry)).map
        fun e => (e.key, (⟨e.data, e.timestamp⟩ : CacheEntry))) = c.cache := by
    rw [List.map_map]
    exact List.map_id c.cache
  rw [hfil, hid] at him
  have hexp : exportSnapshot c =
      .parsed ⟨.list (c.cache.map fun p => ⟨p.1, p.2.data, p.2.timestamp⟩),
        some c.stats⟩ := rfl
  rw [hexp, him]
  exact ⟨rfl, rfl, fun u t => cacheGet_fst_congr _ _ u t rfl rfl⟩

/-- C8 (witness). -/
theorem export_import_roundtrip_witness :
    ((populatedCache.cache.map Prod.fst).Nodup ∧
      ∀ p ∈ populatedCache.cache,
        6 - p.2.timestamp ≤ populatedCache.ttlMs) ∧
    ((importSnapshot populatedCache (exportSnapshot populatedCache) 6).1 =
      true ∧
     (importSnapshot populatedCache
       (exportSnapshot populatedCache) 6).2.cache = populatedCache.cache ∧
     ∀ (u : String) (t : Nat),
       (cacheGet (importSnapshot populatedCache
         (exportSnapshot populatedCache) 6).2 u t).1 =
         (cacheGet populatedCache u t).1) :=
  ⟨⟨by decide, by decide⟩,
   export_import_roundtrip populatedCache 6 (by decide) (by decide)⟩

end Phish
